import Mathlib

/-!
# Verification of the cognify-app retrieval + streaming core

A shallow embedding of the repository's three algorithmic subsystems and
proofs of the specification's claims about them:

* `RAGService.search_documents` / `RAGService.get_context`
  (backend/services/rag_service.py) — keyword-overlap retrieval;
* `DocumentService.chunk_text` (backend/services/document_service.py) —
  overlapping window chunker with sentence-boundary trimming;
* the `generate` coroutine and `cancel_stream` endpoint
  (backend/routers/chat.py) — the streaming / cancellation coordinator.

Python strings are modelled as Lean `String` (operating on code points,
matching Python's indexing), Python's stable `list.sort(key=score,
reverse=True)` as Mathlib's stable `List.insertionSort` under the
"score is at least" relation, and the cooperative async streaming loop as a
step function over an explicit schedule that interleaves external actions
(cancel requests, client disconnect) with upstream producer steps.
-/

namespace Cognify

/-! ## Python string primitives -/

/-- Python `str.lower()` (code-point-wise lowercasing; exact for the ASCII
range exercised by this code base). -/
def pyLower (s : String) : String := ⟨s.data.map Char.toLower⟩

/-- Split on single whitespace characters, keeping empty pieces. -/
def splitWsAux : List Char → List Char → List (List Char)
  | [], acc => [acc.reverse]
  | c :: cs, acc =>
    if c.isWhitespace then acc.reverse :: splitWsAux cs []
    else splitWsAux cs (c :: acc)

/-- Python `str.split()` with no argument: split on whitespace runs,
dropping empty pieces. -/
def pySplitWs (s : String) : List String :=
  ((splitWsAux s.data []).filter (fun w => ¬ w.isEmpty)).map (fun w => ⟨w⟩)

/-- Does the first list start with the second one? -/
def charsStartWith : List Char → List Char → Bool
  | _, [] => true
  | [], _ :: _ => false
  | c :: cs, d :: ds => c = d && charsStartWith cs ds

/-- Does the first list contain the second as a contiguous run? -/
def charsContain (haystack needle : List Char) : Bool :=
  match haystack with
  | [] => needle.isEmpty
  | _ :: rest => charsStartWith haystack needle || charsContain rest needle

/-- Python `needle in haystack` on strings: substring containment. -/
def pyContains (haystack needle : String) : Bool :=
  charsContain haystack.data needle.data

/-- Python `chunk.strip()`: drop leading and trailing whitespace. -/
def pyStrip (l : List Char) : List Char :=
  ((l.dropWhile Char.isWhitespace).reverse.dropWhile Char.isWhitespace).reverse

/-! ## Data model (backend/services/rag_service.py) -/

/-- A stored document chunk row (`models.document.DocumentChunk`), as seen
by the retriever: the corpus is the list of chunks in database iteration
order. -/
structure DocumentChunk where
  content : String
  document_id : String
  chunk_index : Nat
deriving DecidableEq, Repr

/-- `rag_service.SearchResult`.  The score is an integer count in the
source (a sum of 1s), stored there in a float field; we keep it as `Nat`. -/
structure SearchResult where
  content : String
  document_id : String
  chunk_index : Nat
  score : Nat
deriving DecidableEq, Repr

/-- One source descriptor produced by `RAGService.get_context`. -/
structure SourceInfo where
  document_id : String
  chunk_index : Nat
  preview : String
deriving DecidableEq, Repr

/-- `score = sum(1 for keyword in keywords if keyword in content_lower)`
with `content_lower = chunk.content.lower()`. -/
def scoreChunk (keywords : List String) (content : String) : Nat :=
  keywords.countP (fun keyword => pyContains (pyLower content) keyword)

/-- The pre-sort candidate list of `RAGService.search_documents`: one
`SearchResult` per corpus chunk with positive score, in corpus order. -/
def candidateResults (chunks : List DocumentChunk) (query : String) :
    List SearchResult :=
  let keywords := pySplitWs (pyLower query)
  chunks.filterMap (fun c =>
    let score := scoreChunk keywords c.content
    if 0 < score then
      some { content := c.content, document_id := c.document_id,
             chunk_index := c.chunk_index, score := score }
    else none)

/-- The ordering used by `results.sort(key=lambda x: x.score, reverse=True)`:
`a` may stay before `b` iff `a.score ≥ b.score`. -/
def scoreGE (a b : SearchResult) : Prop := b.score ≤ a.score

instance : DecidableRel scoreGE := fun a b => Nat.decLe b.score a.score

instance : IsTotal SearchResult scoreGE := ⟨fun a b => Nat.le_total b.score a.score⟩

instance : IsTrans SearchResult scoreGE :=
  ⟨fun _ _ _ h1 h2 => Nat.le_trans h2 h1⟩

/-- `RAGService.search_documents`: filter zero-score chunks, stable-sort
descending by score, truncate to `top_k`.  Python's `list.sort` is a stable
sort; `List.insertionSort scoreGE` realises exactly that stable descending
order. -/
def search_documents (chunks : List DocumentChunk) (query : String)
    (top_k : Nat) : List SearchResult :=
  (List.insertionSort scoreGE (candidateResults chunks query)).take top_k

/-- The preview built by `RAGService.get_context`:
`r.content[:100] + "..." if len(r.content) > 100 else r.content`. -/
def previewOf (content : String) : String :=
  if 100 < content.length then ⟨content.data.take 100⟩ ++ "..." else content

/-- `RAGService.get_context`: the parallel context/source lists. -/
def get_context (chunks : List DocumentChunk) (query : String)
    (top_k : Nat) : List String × List SourceInfo :=
  let results := search_documents chunks query top_k
  (results.map (fun r => r.content),
   results.map (fun r =>
     { document_id := r.document_id, chunk_index := r.chunk_index,
       preview := previewOf r.content }))

/-! ## Chunker (backend/services/document_service.py, `chunk_text`) -/

/-- Python `chunk.rfind(".")` on a character list: the index of the last
occurrence of `'.'`, or `none` where Python returns `-1`. -/
def rfindDot : List Char → Option Nat
  | [] => none
  | c :: cs =>
    match rfindDot cs with
    | some i => some (i + 1)
    | none => if c = '.' then some 0 else none

/-- The sentence-boundary trim applied by `chunk_text` to a window that
does not reach the end of the text:

```python
last_period = chunk.rfind(".")
if last_period > self.chunk_size * 0.5:
    chunk = chunk[: last_period + 1]
```

For a natural index `i`, the float comparison `i > chunk_size * 0.5` is
exactly `2 * i > chunk_size` (the float arithmetic is exact at these
magnitudes); `rfind`'s `-1` never exceeds a non-negative threshold. -/
def trimChunk (chunk_size : Nat) (chunk : List Char) : List Char :=
  match rfindDot chunk with
  | some i => if chunk_size < 2 * i then chunk.take (i + 1) else chunk
  | none => chunk

/-- One full walk of the `while start < len(text)` loop of `chunk_text`,
with explicit fuel.  Each iteration takes the window `text[start:start +
chunk_size]`, applies the sentence trim when the window stops short of the
text end (`end < len(text)`), appends the stripped window, and restarts at
`end - chunk_overlap`.  The fuel supplied by `chunk_text` covers every
terminating run of the Python loop (the source loops forever when the step
is non-positive, e.g. `chunk_overlap ≥ chunk_size`; spec §9 flags this). -/
def chunkWalk (chunk_size chunk_overlap : Nat) (text : List Char) :
    Nat → Nat → List (List Char)
  | 0, _ => []
  | fuel + 1, start =>
    if start < text.length then
      let window := (text.drop start).take chunk_size
      if start + chunk_size < text.length then
        let chunk := trimChunk chunk_size window
        pyStrip chunk ::
          chunkWalk chunk_size chunk_overlap text fuel
            (start + chunk.length - chunk_overlap)
      else
        pyStrip window ::
          chunkWalk chunk_size chunk_overlap text fuel
            (start + chunk_size - chunk_overlap)
    else []

/-- `DocumentService.chunk_text`: overlapping windows, sentence-boundary
trimming, per-window strip, and final removal of empty chunks. -/
def chunk_text (chunk_size chunk_overlap : Nat) (text : String) :
    List String :=
  if text.data.isEmpty then []
  else
    ((chunkWalk chunk_size chunk_overlap text.data (text.length + 1) 0).filter
      (fun c => ¬ c.isEmpty)).map (fun c => ⟨c⟩)

/-- Modelled from the spec: the trim rule as the specification words it —
"the window is trimmed back to end at the last sentence-terminating period
found at or after the 50%-of-`chunk_size` mark; if no such period exists,
the window is kept at full length".  A period at index `i` lies at or after
the mark when `2 * i ≥ chunk_size`; the last such period, when one exists,
is the last period of the window. -/
def specTrimChunk (chunk_size : Nat) (chunk : List Char) : List Char :=
  match rfindDot chunk with
  | some i => if chunk_size ≤ 2 * i then chunk.take (i + 1) else chunk
  | none => chunk

/-! ## Stream coordinator (backend/routers/chat.py)

The module-level dict `active_streams` is modelled as an association list
with the dict operations used by the source (`in`, `[k] = v`,
`.get(k, False)`, `.pop(k, None)`); the update operation keeps one entry
per key, as a dict does.

The `generate` async generator is modelled as a function of an explicit
schedule: before each pull from the upstream producer the event loop may
run external actions (a `cancel_stream` request or a client disconnect),
then the pull either yields one content fragment or raises.  These are
exactly the suspension points of the coroutine. -/

/-- The in-memory `active_streams` table. -/
def Table : Type := List (String × Bool)

/-- Python `stream_id in active_streams`. -/
def tableHas (t : Table) (k : String) : Bool :=
  (List.any t fun p => p.1 = k)

/-- Python `active_streams.get(k, default)` (value lookup, `none` when the
key is absent). -/
def tableGet (t : Table) (k : String) : Option Bool :=
  match t with
  | [] => none
  | p :: rest => if p.1 = k then some p.2 else tableGet rest k

/-- Python `active_streams[k] = v`: overwrite or insert, one entry per
key. -/
def tableSet (t : Table) (k : String) (v : Bool) : Table :=
  (k, v) :: List.filter (fun p => p.1 ≠ k) t

/-- Python `active_streams.pop(k, None)`: the table afterwards has no entry
for `k`. -/
def tablePop (t : Table) (k : String) : Table :=
  List.filter (fun p => p.1 ≠ k) t

/-- The response body of the cancel endpoint. -/
structure CancelResponse where
  message : String
  stream_id : String
deriving DecidableEq, Repr

/-- `cancel_stream` (POST /api/chat/message/cancel/{stream_id}): flip a
registered stream to inactive, otherwise report not-found; in both cases a
normal response, never an exception. -/
def cancel_stream (t : Table) (stream_id : String) : Table × CancelResponse :=
  if tableHas t stream_id then
    (tableSet t stream_id false,
     { message := "Stream cancelled", stream_id := stream_id })
  else
    (t, { message := "Stream not found or already completed",
          stream_id := stream_id })

/-- The four server-sent event kinds emitted by `generate`.  The `done`
event's first field records whether a `message_id` is attached (a message
was persisted). -/
inductive Event where
  | start (stream_id session_id : String)
  | chunk (content : String)
  | error (message : String)
  | done (has_message_id : Bool) (cancelled : Bool)
deriving DecidableEq, Repr

/-- The spec's per-stream state machine states. -/
inductive StreamState where
  | CREATED
  | STREAMING
  | COMPLETED
  | CANCELLED
  | FAILED
deriving DecidableEq, Repr

/-- One step of the upstream producer `agent_service.chat_stream`: a
content fragment, or an exception raised while pulling. -/
inductive UpstreamStep where
  | frag (content : String)
  | err (message : String)
deriving DecidableEq, Repr

/-- An external action the event loop can run while `generate` awaits the
next fragment: a cancel request for some stream, or the client connection
dropping. -/
inductive ExtAction where
  | cancelReq (stream_id : String)
  | disconnect
deriving DecidableEq, Repr

/-- A schedule: before each upstream step, the batch of external actions
observed since the previous one. -/
def Schedule : Type := List (List ExtAction × UpstreamStep)

/-- The mutable state of one run of the `generate` coroutine's loop. -/
structure LoopState where
  table : Table
  disconnected : Bool
  buffer : String
  events : List Event
  cancelled : Bool
  errored : Option String

/-- Effect of one external action on the shared state. -/
def applyExt (st : LoopState) : ExtAction → LoopState
  | ExtAction.cancelReq id => { st with table := (cancel_stream st.table id).1 }
  | ExtAction.disconnect => { st with disconnected := true }

/-- The `async for chunk in agent_service.chat_stream(...)` loop of
`generate`: per fragment, in order — (1) `if not
active_streams.get(stream_id, False): cancelled = True; break`, (2) `if
await request.is_disconnected(): cancelled = True; break`, (3)
`full_content += chunk` and yield a `chunk` event.  An exception while
pulling aborts the loop. -/
def runSteps (stream_id : String) : LoopState → Schedule → LoopState
  | st, [] => st
  | st, (ext, step) :: rest =>
    let st1 := ext.foldl applyExt st
    match step with
    | UpstreamStep.err m => { st1 with errored := some m }
    | UpstreamStep.frag s =>
      if (tableGet st1.table stream_id).getD false = false then
        { st1 with cancelled := true }
      else if st1.disconnected then
        { st1 with cancelled := true }
      else
        runSteps stream_id
          { st1 with buffer := st1.buffer ++ s,
                     events := st1.events ++ [Event.chunk s] } rest

/-- The multimodal-error translation in the `except` branch of
`generate`. -/
def friendlyError (error_msg : String) : String :=
  if pyContains error_msg "content must be a string"
      || (pyContains error_msg "content" && pyContains error_msg "string") then
    "⚠️ Model Error: Model yang dipilih tidak mendukung gambar (Multimodal). Silakan ganti ke model Vision (contoh: Llama-3.2 Vision, GPT-4o, Qwen-VL) di Settings."
  else error_msg

/-- The outcome of one full run of the `generate` coroutine. -/
structure GenResult where
  table : Table
  events : List Event
  status : StreamState
  buffer : String
  persisted : Option String

/-- The loop state at entry: `active_streams[stream_id] = True` followed by
the `start` event. -/
def initLoopState (table0 : Table) (stream_id session_id : String) :
    LoopState :=
  { table := tableSet table0 stream_id true, disconnected := false,
    buffer := "", events := [Event.start stream_id session_id],
    cancelled := false, errored := none }

/-- The whole `generate` coroutine: register, stream, then — via the
`except`/`finally` epilogue — emit a single `error` event without
persisting on failure, or pop the registration and persist the non-empty
buffer (suffixed with `" [cancelled]"` after cancellation) before the
`done` event.  The `finally` pop runs on every path. -/
def generate (stream_id session_id : String) (table0 : Table)
    (sched : Schedule) : GenResult :=
  let st := runSteps stream_id (initLoopState table0 stream_id session_id) sched
  let t := tablePop st.table stream_id
  match st.errored with
  | some m =>
    { table := t, events := st.events ++ [Event.error (friendlyError m)],
      status := StreamState.FAILED, buffer := st.buffer, persisted := none }
  | none =>
    if st.buffer = "" then
      { table := t, events := st.events ++ [Event.done false st.cancelled],
        status := if st.cancelled then StreamState.CANCELLED else StreamState.COMPLETED,
        buffer := st.buffer, persisted := none }
    else
      { table := t, events := st.events ++ [Event.done true st.cancelled],
        status := if st.cancelled then StreamState.CANCELLED else StreamState.COMPLETED,
        buffer := st.buffer,
        persisted := some (st.buffer ++ (if st.cancelled then " [cancelled]" else "")) }

/-- Count of `chunk` events in an event list. -/
def countChunks (evs : List Event) : Nat :=
  evs.countP (fun e => match e with | Event.chunk _ => true | _ => false)

/-- Count of `error` events in an event list. -/
def countErrors (evs : List Event) : Nat :=
  evs.countP (fun e => match e with | Event.error _ => true | _ => false)

/-! ## Table lemmas -/

theorem tableGet_tablePop (t : Table) (k : String) :
    tableGet (tablePop t k) k = none := by
  induction t with
  | nil => rfl
  | cons p rest ih =>
    by_cases h : p.1 = k
    · simpa [tablePop, List.filter, h] using ih
    · simpa [tablePop, List.filter, h, tableGet] using ih

theorem tableHas_tablePop (t : Table) (k : String) :
    tableHas (tablePop t k) k = false := by
  simp [tableHas, tablePop, List.any_eq_true, List.mem_filter]

theorem tableGet_tableSet (t : Table) (k : String) (v : Bool) :
    tableGet (tableSet t k v) k = some v := by
  simp [tableSet, tableGet]

theorem tableHas_tableSet (t : Table) (k : String) (v : Bool) :
    tableHas (tableSet t k v) k = true := by
  simp [tableSet, tableHas]

theorem tableSet_tableSet (t : Table) (k : String) (v w : Bool) :
    tableSet (tableSet t k v) k w = tableSet t k w := by
  simp [tableSet, List.filter_filter]

/-! ## Claim theorems: cancel endpoint and registration cleanup -/

/-- C4.  `cancel_stream`: a registered `stream_id` is flipped to inactive
with a success report; an unregistered one leaves the table untouched and
reports "not found or already completed" (always a normal response — the
operation is a total function); and a second cancel is a no-op on the
table, whether the first registration is still present or already gone. -/
theorem cancel_stream_spec (t : Table) (stream_id : String) :
    (tableHas t stream_id = true →
      tableGet (cancel_stream t stream_id).1 stream_id = some false
      ∧ (cancel_stream t stream_id).2
          = { message := "Stream cancelled", stream_id := stream_id })
    ∧ (tableHas t stream_id = false →
      (cancel_stream t stream_id).1 = t
      ∧ (cancel_stream t stream_id).2
          = { message := "Stream not found or already completed",
              stream_id := stream_id })
    ∧ (cancel_stream (cancel_stream t stream_id).1 stream_id).1
        = (cancel_stream t stream_id).1 := by
  by_cases h : tableHas t stream_id
  · refine ⟨fun _ => ⟨?_, ?_⟩, fun h' => absurd h (by simp [h']), ?_⟩
    · simp [cancel_stream, h, tableGet_tableSet]
    · simp [cancel_stream, h]
    · simp [cancel_stream, h, tableHas_tableSet, tableSet_tableSet]
  · refine ⟨fun h' => absurd h' (by simp [h]), fun _ => ⟨?_, ?_⟩, ?_⟩
    · simp [cancel_stream, h]
    · simp [cancel_stream, h]
    · simp [cancel_stream, h]

/-- C4 witness: on the one-entry table the cancel succeeds, flips the flag,
and is idempotent. -/
theorem cancel_stream_spec_witness :
    tableGet (cancel_stream [("s1", true)] "s1").1 "s1" = some false
    ∧ (cancel_stream [("s1", true)] "s1").2
        = { message := "Stream cancelled", stream_id := "s1" } :=
  (cancel_stream_spec [("s1", true)] "s1").1 (by decide)

/-- C3.  Every run of `generate` ends in a terminal state, and the
`finally` cleanup removes the stream's registration from the table on all
of them: afterwards the `stream_id` is absent. -/
theorem generate_terminal_cleanup (stream_id session_id : String)
    (table0 : Table) (sched : Schedule) :
    ((generate stream_id session_id table0 sched).status = StreamState.COMPLETED
      ∨ (generate stream_id session_id table0 sched).status = StreamState.CANCELLED
      ∨ (generate stream_id session_id table0 sched).status = StreamState.FAILED)
    ∧ tableGet (generate stream_id session_id table0 sched).table stream_id = none
    ∧ tableHas (generate stream_id session_id table0 sched).table stream_id = false := by
  simp only [generate]
  cases h : (runSteps stream_id (initLoopState table0 stream_id session_id) sched).errored with
  | some m => simp [h, tableGet_tablePop, tableHas_tablePop]
  | none =>
    by_cases hb : (runSteps stream_id (initLoopState table0 stream_id session_id) sched).buffer = "" <;>
    by_cases hc : (runSteps stream_id (initLoopState table0 stream_id session_id) sched).cancelled <;>
    simp [h, hb, hc, tableGet_tablePop, tableHas_tablePop]

/-! ## Loop invariants of `generate` -/

theorem applyExt_fields (st : LoopState) (a : ExtAction) :
    (applyExt st a).cancelled = st.cancelled
    ∧ (applyExt st a).errored = st.errored
    ∧ (applyExt st a).buffer = st.buffer
    ∧ (applyExt st a).events = st.events := by
  cases a <;> exact ⟨rfl, rfl, rfl, rfl⟩

theorem foldl_applyExt_fields (ext : List ExtAction) (st : LoopState) :
    (ext.foldl applyExt st).cancelled = st.cancelled
    ∧ (ext.foldl applyExt st).errored = st.errored
    ∧ (ext.foldl applyExt st).buffer = st.buffer
    ∧ (ext.foldl applyExt st).events = st.events := by
  induction ext generalizing st with
  | nil => exact ⟨rfl, rfl, rfl, rfl⟩
  | cons a rest ih =>
    have h := applyExt_fields st a
    have h2 := ih (applyExt st a)
    exact ⟨h2.1.trans h.1, h2.2.1.trans h.2.1, h2.2.2.1.trans h.2.2.1,
      h2.2.2.2.trans h.2.2.2⟩

/-- Once the loop is broken by a cancellation the run carries no error:
the two exit reasons are mutually exclusive. -/
theorem runSteps_cancelled_of_errored (stream_id : String) (sched : Schedule)
    (st : LoopState) (hc : st.cancelled = false) (he : st.errored = none) :
    (runSteps stream_id st sched).cancelled = true →
      (runSteps stream_id st sched).errored = none := by
  induction sched generalizing st with
  | nil => intro h; simp only [runSteps] at h ⊢; rw [hc] at h; exact absurd h (by simp)
  | cons entry rest ih =>
    obtain ⟨ext, step⟩ := entry
    intro h
    have hf := foldl_applyExt_fields ext st
    simp only [runSteps] at h ⊢
    cases step with
    | err m =>
      simp only at h
      rw [hf.1, hc] at h
      exact absurd h (by simp)
    | frag s =>
      simp only at h ⊢
      by_cases h1 : (tableGet (ext.foldl applyExt st).table stream_id).getD false = false
      · simp only [h1, if_true] at h ⊢
        exact hf.2.1.trans he
      · simp only [h1, if_false] at h ⊢
        by_cases h2 : (ext.foldl applyExt st).disconnected
        · simp only [h2, if_true] at h ⊢
          exact hf.2.1.trans he
        · simp only [h2, if_false] at h ⊢
          exact ih _ (by rw [hf.1]; exact hc) (by rw [hf.2.1]; exact he) h

/-- The loop body emits only `chunk` events: the count of `error` events is
unchanged by `runSteps`. -/
theorem countErrors_runSteps (stream_id : String) (sched : Schedule)
    (st : LoopState) :
    countErrors (runSteps stream_id st sched).events = countErrors st.events := by
  induction sched generalizing st with
  | nil => simp only [runSteps]
  | cons entry rest ih =>
    obtain ⟨ext, step⟩ := entry
    have hf := foldl_applyExt_fields ext st
    simp only [runSteps]
    cases step with
    | err m => dsimp only; rw [hf.2.2.2]
    | frag s =>
      dsimp only
      split
      · dsimp only; rw [hf.2.2.2]
      · split
        · dsimp only; rw [hf.2.2.2]
        · rw [ih]
          dsimp only
          rw [hf.2.2.2]
          simp [countErrors, List.countP_append]

/-! ## Claim theorems: streaming order, error/persistence asymmetry -/

/-- C1.  Per fragment the loop acts in order: (1) if the registration flag
reads inactive (or the entry is gone) the loop breaks with `cancelled`
without touching the buffer, emitting nothing and consuming none of the
remaining schedule, regardless of the connection state; (2) otherwise, if
the client has disconnected, the same break happens; (3) otherwise the
fragment is appended to the buffer and a `chunk` event is emitted
immediately, before any further fragment is processed.  And once the loop
has been broken by such an observation, the stream's final status is
`CANCELLED` and no `chunk` event beyond those already emitted ever
appears. -/
theorem generate_streaming_order (stream_id session_id : String)
    (table0 : Table) (sched : Schedule) (st : LoopState)
    (ext : List ExtAction) (s : String) (rest : Schedule) :
    ((tableGet (ext.foldl applyExt st).table stream_id).getD false = false →
      runSteps stream_id st ((ext, UpstreamStep.frag s) :: rest)
        = { ext.foldl applyExt st with cancelled := true })
    ∧ ((tableGet (ext.foldl applyExt st).table stream_id).getD false = true →
        (ext.foldl applyExt st).disconnected = true →
      runSteps stream_id st ((ext, UpstreamStep.frag s) :: rest)
        = { ext.foldl applyExt st with cancelled := true })
    ∧ ((tableGet (ext.foldl applyExt st).table stream_id).getD false = true →
        (ext.foldl applyExt st).disconnected = false →
      runSteps stream_id st ((ext, UpstreamStep.frag s) :: rest)
        = runSteps stream_id
            { ext.foldl applyExt st with
                buffer := (ext.foldl applyExt st).buffer ++ s,
                events := (ext.foldl applyExt st).events ++ [Event.chunk s] }
            rest)
    ∧ ((runSteps stream_id (initLoopState table0 stream_id session_id) sched).cancelled = true →
        (generate stream_id session_id table0 sched).status = StreamState.CANCELLED
        ∧ countChunks (generate stream_id session_id table0 sched).events
            = countChunks
                (runSteps stream_id (initLoopState table0 stream_id session_id) sched).events) := by
  refine ⟨?_, ?_, ?_, ?_⟩
  · intro h1
    simp only [runSteps]
    rw [if_pos h1]
  · intro h1 h2
    simp only [runSteps]
    rw [if_neg (by simp [h1]), if_pos h2]
  · intro h1 h2
    simp only [runSteps]
    rw [if_neg (by simp [h1]), if_neg (by simp [h2])]
  · intro hc
    have he : (runSteps stream_id (initLoopState table0 stream_id session_id) sched).errored = none :=
      runSteps_cancelled_of_errored stream_id sched _ rfl rfl hc
    simp only [generate, he]
    by_cases hb : (runSteps stream_id (initLoopState table0 stream_id session_id) sched).buffer = "" <;>
      simp [hb, hc, countChunks, List.countP_append]

/-- C2.  The failure/cancellation asymmetry of `generate`: a `FAILED` run
emits exactly one `error` event and persists nothing; a `COMPLETED` or
`CANCELLED` run persists the accumulated buffer exactly when it is
non-empty (with the `" [cancelled]"` suffix in the cancelled case) and,
when the buffer is empty, persists nothing and closes with a bare `done`
event carrying no message id.  An upstream exception always lands in the
`FAILED` branch, appending its single `error` event to the loop's
events. -/
theorem generate_error_persistence (stream_id session_id : String)
    (table0 : Table) (sched : Schedule) :
    ((generate stream_id session_id table0 sched).status = StreamState.FAILED →
      countErrors (generate stream_id session_id table0 sched).events = 1
      ∧ (generate stream_id session_id table0 sched).persisted = none)
    ∧ ((generate stream_id session_id table0 sched).status = StreamState.COMPLETED
        ∨ (generate stream_id session_id table0 sched).status = StreamState.CANCELLED →
      ((generate stream_id session_id table0 sched).buffer ≠ "" →
        (generate stream_id session_id table0 sched).persisted
          = some ((generate stream_id session_id table0 sched).buffer
              ++ (if (generate stream_id session_id table0 sched).status = StreamState.CANCELLED
                  then " [cancelled]" else "")))
      ∧ ((generate stream_id session_id table0 sched).buffer = "" →
        (generate stream_id session_id table0 sched).persisted = none
        ∧ (generate stream_id session_id table0 sched).events.getLast?
            = some (Event.done false
                (decide ((generate stream_id session_id table0 sched).status
                  = StreamState.CANCELLED)))))
    ∧ (∀ m, (runSteps stream_id (initLoopState table0 stream_id session_id) sched).errored = some m →
        (generate stream_id session_id table0 sched).status = StreamState.FAILED
        ∧ (generate stream_id session_id table0 sched).events
            = (runSteps stream_id (initLoopState table0 stream_id session_id) sched).events
              ++ [Event.error (friendlyError m)]) := by
  have hinit : countErrors
      (initLoopState table0 stream_id session_id).events = 0 := by
    simp [initLoopState, countErrors]
  cases he : (runSteps stream_id (initLoopState table0 stream_id session_id) sched).errored with
  | some m =>
    refine ⟨fun _ => ⟨?_, ?_⟩, ?_, ?_⟩
    · simp only [generate, he]
      have := countErrors_runSteps stream_id sched
        (initLoopState table0 stream_id session_id)
      simp [countErrors, List.countP_append] at this ⊢
      simpa [countErrors] using this.trans hinit
    · simp only [generate, he]
    · simp only [generate, he]
      intro hco
      rcases hco with hco | hco <;> exact absurd hco (by simp)
    · intro m' hm'
      cases hm'
      constructor
      · simp only [generate, he]
      · simp only [generate, he]
  | none =>
    have hs : (generate stream_id session_id table0 sched).status
        = (if (runSteps stream_id (initLoopState table0 stream_id session_id) sched).cancelled
           then StreamState.CANCELLED else StreamState.COMPLETED) := by
      simp only [generate, he]
      by_cases hb : (runSteps stream_id (initLoopState table0 stream_id session_id) sched).buffer = "" <;>
        simp [hb]
    refine ⟨fun hF => ?_, fun _ => ⟨?_, ?_⟩, fun m hm => by cases hm⟩
    · rw [hs] at hF
      by_cases hc : (runSteps stream_id (initLoopState table0 stream_id session_id) sched).cancelled <;>
        simp [hc] at hF
    · intro hb
      have hb' : ¬ (runSteps stream_id (initLoopState table0 stream_id session_id) sched).buffer = "" := by
        intro h0
        apply hb
        simp only [generate]
        rw [he]
        simp [h0]
      simp only [generate, he]
      rw [hs] at *
      by_cases hc : (runSteps stream_id (initLoopState table0 stream_id session_id) sched).cancelled <;>
        simp [hb', hc]
    · intro hb
      have hb' : (runSteps stream_id (initLoopState table0 stream_id session_id) sched).buffer = "" := by
        have : (generate stream_id session_id table0 sched).buffer
            = (runSteps stream_id (initLoopState table0 stream_id session_id) sched).buffer := by
          simp only [generate, he]
          by_cases hbb : (runSteps stream_id (initLoopState table0 stream_id session_id) sched).buffer = "" <;>
            simp [hbb]
        rw [← this]; exact hb
      simp only [generate, he]
      rw [hs] at *
      by_cases hc : (runSteps stream_id (initLoopState table0 stream_id session_id) sched).cancelled <;>
        simp [hb', hc, List.getLast?_append]

/-- C1 witness: a cancel request that lands before the first fragment
drives the concrete run to `CANCELLED` with no chunk event emitted. -/
theorem generate_streaming_order_witness :
    (generate "s1" "ss" [] [([ExtAction.cancelReq "s1"], UpstreamStep.frag "x")]).status
        = StreamState.CANCELLED
    ∧ countChunks (generate "s1" "ss" []
          [([ExtAction.cancelReq "s1"], UpstreamStep.frag "x")]).events
        = countChunks (runSteps "s1" (initLoopState [] "s1" "ss")
          [([ExtAction.cancelReq "s1"], UpstreamStep.frag "x")]).events :=
  (generate_streaming_order "s1" "ss" []
      [([ExtAction.cancelReq "s1"], UpstreamStep.frag "x")]
      (initLoopState [] "s1" "ss") [] "" []).2.2.2 (by decide)

/-- C2 witness: an upstream exception on the concrete run yields exactly
one error event and no persisted message. -/
theorem generate_error_persistence_witness :
    countErrors (generate "s1" "ss" [] [([], UpstreamStep.err "boom")]).events = 1
    ∧ (generate "s1" "ss" [] [([], UpstreamStep.err "boom")]).persisted = none :=
  (generate_error_persistence "s1" "ss" [] [([], UpstreamStep.err "boom")]).1
    (by decide)

/-! ## Retriever lemmas -/

theorem mem_candidateResults_score {chunks : List DocumentChunk}
    {query : String} {r : SearchResult}
    (h : r ∈ candidateResults chunks query) : 0 < r.score := by
  simp only [candidateResults, List.mem_filterMap] at h
  obtain ⟨c, _, hc⟩ := h
  by_cases hs : 0 < scoreChunk (pySplitWs (pyLower query)) c.content
  · rw [if_pos hs] at hc
    cases hc
    exact hs
  · rw [if_neg hs] at hc
    cases hc

theorem mem_candidateResults (chunks : List DocumentChunk) (query : String)
    {r : SearchResult} (h : r ∈ candidateResults chunks query) :
    ∃ c ∈ chunks, r.content = c.content ∧ r.document_id = c.document_id
      ∧ r.chunk_index = c.chunk_index
      ∧ r.score = scoreChunk (pySplitWs (pyLower query)) c.content := by
  simp only [candidateResults, List.mem_filterMap] at h
  obtain ⟨c, hcm, hc⟩ := h
  by_cases hs : 0 < scoreChunk (pySplitWs (pyLower query)) c.content
  · rw [if_pos hs] at hc
    cases hc
    exact ⟨c, hcm, rfl, rfl, rfl, rfl⟩
  · rw [if_neg hs] at hc
    cases hc

theorem mem_search_documents {chunks : List DocumentChunk} {query : String}
    {top_k : Nat} {r : SearchResult}
    (h : r ∈ search_documents chunks query top_k) :
    r ∈ candidateResults chunks query := by
  have h1 : r ∈ List.insertionSort scoreGE (candidateResults chunks query) :=
    List.mem_of_mem_take h
  exact (List.mem_insertionSort scoreGE).mp h1

theorem filter_take_isPrefixOf (l : List SearchResult) (n : Nat)
    (p : SearchResult → Bool) :
    ((l.take n).filter p) <+: (l.filter p) :=
  ⟨(l.drop n).filter p, by rw [← List.filter_append, List.take_append_drop]⟩

/-- Stability of the stable descending sort used by `search_documents`:
within one score class the sorted order is the candidate (corpus) order. -/
theorem filter_insertionSort_score (cands : List SearchResult) (s : Nat) :
    (List.insertionSort scoreGE cands).filter (fun r => r.score == s)
      = cands.filter (fun r => r.score == s) := by
  have hpair : (cands.filter (fun r => r.score == s)).Pairwise scoreGE := by
    refine List.pairwise_of_forall_mem_list ?_
    intro a ha b hb
    have ha' := (List.mem_filter.mp ha).2
    have hb' := (List.mem_filter.mp hb).2
    simp only [beq_iff_eq] at ha' hb'
    show b.score ≤ a.score
    rw [ha', hb']
  have hsub : List.Sublist (cands.filter (fun r => r.score == s))
      (List.insertionSort scoreGE cands) :=
    List.sublist_insertionSort hpair (List.filter_sublist cands)
  have hself : (cands.filter (fun r => r.score == s)).filter
      (fun r => r.score == s) = cands.filter (fun r => r.score == s) :=
    List.filter_eq_self.mpr (fun a ha => (List.mem_filter.mp ha).2)
  have hsub2 : List.Sublist (cands.filter (fun r => r.score == s))
      ((List.insertionSort scoreGE cands).filter (fun r => r.score == s)) := by
    have := List.Sublist.filter (fun r => r.score == s) hsub
    rwa [hself] at this
  have hlen : ((List.insertionSort scoreGE cands).filter
        (fun r => r.score == s)).length
      = (cands.filter (fun r => r.score == s)).length :=
    ((List.perm_insertionSort scoreGE cands).filter _).length_eq
  exact (hsub2.eq_of_length hlen.symm).symm

/-! ## Claim theorems: retrieval -/

/-- C5.  Every result of `search_documents` has score at least 1, the
results are in non-increasing score order, at most `top_k` are returned,
and within each score class the returned order is a prefix of the
candidate (corpus iteration) order — the stable-sort tie-break. -/
theorem search_documents_spec (chunks : List DocumentChunk) (query : String)
    (top_k : Nat) :
    (∀ r ∈ search_documents chunks query top_k, 1 ≤ r.score)
    ∧ (search_documents chunks query top_k).Pairwise
        (fun a b => b.score ≤ a.score)
    ∧ (search_documents chunks query top_k).length ≤ top_k
    ∧ ∀ s : Nat,
        ((search_documents chunks query top_k).filter (fun r => r.score == s))
          <+: ((candidateResults chunks query).filter (fun r => r.score == s)) := by
  refine ⟨?_, ?_, ?_, ?_⟩
  · intro r hr
    exact mem_candidateResults_score (mem_search_documents hr)
  · exact List.Pairwise.sublist (List.take_sublist _ _)
      (List.sorted_insertionSort scoreGE (candidateResults chunks query))
  · exact List.length_take_le _ _
  · intro s
    have h := filter_take_isPrefixOf
      (List.insertionSort scoreGE (candidateResults chunks query)) top_k
      (fun r => r.score == s)
    rwa [filter_insertionSort_score] at h

/-- C5 witness: a two-chunk corpus in which both chunks tie on score. -/
theorem search_documents_spec_witness :
    1 ≤ (⟨"apple pie", "d", 0, 1⟩ : SearchResult).score
    ∧ (search_documents [⟨"apple pie", "d", 0⟩, ⟨"apple tart", "d", 1⟩]
          "apple" 5).filter (fun r => r.score == 1)
        <+: (candidateResults [⟨"apple pie", "d", 0⟩, ⟨"apple tart", "d", 1⟩]
          "apple").filter (fun r => r.score == 1) :=
  ⟨(search_documents_spec [⟨"apple pie", "d", 0⟩, ⟨"apple tart", "d", 1⟩]
      "apple" 5).1 ⟨"apple pie", "d", 0, 1⟩ (by decide),
   (search_documents_spec [⟨"apple pie", "d", 0⟩, ⟨"apple tart", "d", 1⟩]
      "apple" 5).2.2.2 1⟩

/-- C6.  Every returned result carries the score of its corpus chunk,
which counts the lowercased whitespace-split query keywords occurring as a
substring of the chunk's lowercased content; on the spec's example corpus
the query "stock price" returns only the first chunk, scored 2. -/
theorem search_documents_scoring (chunks : List DocumentChunk)
    (query : String) (top_k : Nat) :
    (∀ r ∈ search_documents chunks query top_k, ∃ c ∈ chunks,
        r.content = c.content ∧ r.document_id = c.document_id
        ∧ r.chunk_index = c.chunk_index
        ∧ r.score = ((pySplitWs (pyLower query)).filter
            (fun kw => pyContains (pyLower c.content) kw)).length)
    ∧ search_documents
        [⟨"Apple stock price rose", "doc", 0⟩, ⟨"Weather today", "doc", 1⟩]
        "stock price" 5
      = [⟨"Apple stock price rose", "doc", 0, 2⟩] := by
  constructor
  · intro r hr
    obtain ⟨c, hcm, h1, h2, h3, h4⟩ :=
      mem_candidateResults chunks query (mem_search_documents hr)
    refine ⟨c, hcm, h1, h2, h3, ?_⟩
    rw [h4, scoreChunk, List.countP_eq_length_filter]
  · decide

/-- C6 witness: the substring (not token) nature of matching — the keyword
"cat" scores inside "category". -/
theorem search_documents_scoring_witness :
    ∃ c ∈ [(⟨"categories", "d", 0⟩ : DocumentChunk)],
      (⟨"categories", "d", 0, 1⟩ : SearchResult).content = c.content
      ∧ (⟨"categories", "d", 0, 1⟩ : SearchResult).document_id = c.document_id
      ∧ (⟨"categories", "d", 0, 1⟩ : SearchResult).chunk_index = c.chunk_index
      ∧ (⟨"categories", "d", 0, 1⟩ : SearchResult).score
          = ((pySplitWs (pyLower "cat")).filter
              (fun kw => pyContains (pyLower c.content) kw)).length :=
  (search_documents_scoring [⟨"categories", "d", 0⟩] "cat" 5).1
    ⟨"categories", "d", 0, 1⟩ (by decide)

/-- C10.  The scorer counts keywords with multiplicity: the keyword list is
the query's whitespace split without deduplication, scoring is additive in
the keyword list, a keyword repeated `n` times contributes `n`, and the
query "cat cat" scores 2 on a chunk containing "cat" once. -/
theorem scoreChunk_multiplicity (kw : String) (kws : List String)
    (content : String) (n : Nat) :
    scoreChunk (kw :: kws) content
      = scoreChunk [kw] content + scoreChunk kws content
    ∧ (pyContains (pyLower content) kw = true →
        scoreChunk (List.replicate n kw) content = n)
    ∧ pySplitWs (pyLower "cat cat") = ["cat", "cat"]
    ∧ search_documents [⟨"the cat sat", "d", 0⟩] "cat cat" 5
        = [⟨"the cat sat", "d", 0, 2⟩] := by
  refine ⟨?_, ?_, by decide, by decide⟩
  · simp only [scoreChunk, List.countP_cons, List.countP_nil]
    omega
  · intro h
    induction n with
    | zero => rfl
    | succ k ih =>
      rw [List.replicate_succ]
      simp [scoreChunk, List.countP_cons, h] at ih ⊢
      omega

/-- C10 witness: "cat" occurs in "the cat sat", so replicating the keyword
three times scores 3. -/
theorem scoreChunk_multiplicity_witness :
    scoreChunk (List.replicate 3 "cat") "the cat sat" = 3 :=
  (scoreChunk_multiplicity "cat" [] "the cat sat" 3).2.1 (by decide)

/-- C7.  `get_context` returns two sequences of equal length, aligned
position-by-position with the ranked `search_documents` results: at rank
`i` the context is the result's content and the source descriptor carries
its ids, with the preview equal to the content when it has at most 100
characters and to the 100-character prefix plus `"..."` otherwise. -/
theorem get_context_spec (chunks : List DocumentChunk) (query : String)
    (top_k : Nat) :
    ((get_context chunks query top_k).1.length
      = (get_context chunks query top_k).2.length)
    ∧ ((get_context chunks query top_k).1.length
      = (search_documents chunks query top_k).length)
    ∧ (∀ (i : Nat) (r : SearchResult), (search_documents chunks query top_k)[i]? = some r →
        ((get_context chunks query top_k).1)[i]? = some r.content
        ∧ ∃ src, ((get_context chunks query top_k).2)[i]? = some src
          ∧ src.document_id = r.document_id
          ∧ src.chunk_index = r.chunk_index
          ∧ (r.content.length ≤ 100 → src.preview = r.content)
          ∧ (100 < r.content.length →
              src.preview = (⟨r.content.data.take 100⟩ : String) ++ "...")) := by
  refine ⟨by simp [get_context], by simp [get_context], ?_⟩
  intro i r hr
  refine ⟨?_, ?_⟩
  · simp [get_context, List.getElem?_map, hr]
  · refine ⟨SourceInfo.mk r.document_id r.chunk_index (previewOf r.content),
        ?_, rfl, rfl, ?_, ?_⟩
    · simp [get_context, List.getElem?_map, hr]
    · intro hle
      simp [previewOf, Nat.not_lt.mpr hle]
    · intro hlt
      simp [previewOf, hlt]

/-- C7 witness: a single-result corpus with short content keeps the
preview identical to the content. -/
theorem get_context_spec_witness :
    ((get_context [⟨"apple pie", "d", 0⟩] "apple" 5).1)[0]?
      = some (⟨"apple pie", "d", 0, 1⟩ : SearchResult).content
    ∧ ∃ src, ((get_context [⟨"apple pie", "d", 0⟩] "apple" 5).2)[0]? = some src
      ∧ src.document_id = (⟨"apple pie", "d", 0, 1⟩ : SearchResult).document_id
      ∧ src.chunk_index = (⟨"apple pie", "d", 0, 1⟩ : SearchResult).chunk_index
      ∧ ((⟨"apple pie", "d", 0, 1⟩ : SearchResult).content.length ≤ 100 →
          src.preview = (⟨"apple pie", "d", 0, 1⟩ : SearchResult).content)
      ∧ (100 < (⟨"apple pie", "d", 0, 1⟩ : SearchResult).content.length →
          src.preview
            = (⟨(⟨"apple pie", "d", 0, 1⟩ : SearchResult).content.data.take 100⟩ : String)
              ++ "...") :=
  (get_context_spec [⟨"apple pie", "d", 0⟩] "apple" 5).2.2 0
    ⟨"apple pie", "d", 0, 1⟩ (by decide)

/-! ## Chunker lemmas -/

theorem rfindDot_none (l : List Char) (h : rfindDot l = none) :
    ∀ j : Nat, l[j]? ≠ some '.' := by
  induction l with
  | nil => intro j; simp
  | cons c cs ih =>
    intro j
    simp only [rfindDot] at h
    cases hr : rfindDot cs with
    | some i => rw [hr] at h; simp at h
    | none =>
      rw [hr] at h
      by_cases hc : c = '.'
      · rw [if_pos hc] at h; simp at h
      · rw [if_neg hc] at h
        cases j with
        | zero => simpa using hc
        | succ m => simpa using ih hr m

theorem rfindDot_some (l : List Char) (i : Nat) (h : rfindDot l = some i) :
    l[i]? = some '.' ∧ ∀ j : Nat, l[j]? = some '.' → j ≤ i := by
  induction l generalizing i with
  | nil => simp [rfindDot] at h
  | cons c cs ih =>
    simp only [rfindDot] at h
    cases hr : rfindDot cs with
    | some k =>
      rw [hr] at h
      cases h
      refine ⟨by simpa using (ih k hr).1, ?_⟩
      intro j hj
      cases j with
      | zero => exact Nat.zero_le _
      | succ m => exact Nat.succ_le_succ ((ih k hr).2 m (by simpa using hj))
    | none =>
      rw [hr] at h
      by_cases hc : c = '.'
      · rw [if_pos hc] at h
        cases h
        refine ⟨by simpa using hc, ?_⟩
        intro j hj
        cases j with
        | zero => exact Nat.le_refl 0
        | succ m => exact absurd (by simpa using hj) (rfindDot_none cs hr m)
      · rw [if_neg hc] at h
        cases h

/-- Characterization of the source's trim step: no trim when the window
has no period or when its last period `m` sits at or before the midpoint
(`2 * m ≤ chunk_size`); a trim down to `m + 1` characters exactly when
the last period is strictly past the midpoint. -/
theorem trimChunk_spec (chunk_size : Nat) (chunk : List Char) :
    ((∀ j : Nat, chunk[j]? ≠ some '.') → trimChunk chunk_size chunk = chunk)
    ∧ (∀ m : Nat, chunk[m]? = some '.' →
        (∀ j : Nat, chunk[j]? = some '.' → j ≤ m) →
        ((chunk_size < 2 * m →
            trimChunk chunk_size chunk = chunk.take (m + 1))
         ∧ (2 * m ≤ chunk_size → trimChunk chunk_size chunk = chunk))) := by
  cases hr : rfindDot chunk with
  | none =>
    refine ⟨fun _ => by simp [trimChunk, hr], ?_⟩
    intro m hm _
    exact absurd hm (rfindDot_none chunk hr m)
  | some i =>
    have hi := rfindDot_some chunk i hr
    refine ⟨fun hno => absurd hi.1 (hno i), ?_⟩
    intro m hm hmax
    have : m = i := Nat.le_antisymm (hi.2 m hm) (hmax i hi.1)
    subst this
    constructor
    · intro hlt
      simp [trimChunk, hr, hlt]
    · intro hle
      simp [trimChunk, hr, Nat.not_lt.mpr hle]

/-! ## Claim theorems: chunker -/

/-- C8 counterexample.  The claim's "at or after the 50% mark" rule
(`specTrimChunk`, modelled from the spec) disagrees with the source's
strict comparison on a window whose last period sits exactly at the
midpoint: in the walk of `"ab.cde"` with `chunk_size = 4` the first window
`"ab.c"` has its last period at index 2 = 4/2; the code keeps the full
window while the spec's wording would trim it to `"ab."`. -/
theorem trim_at_mark_cex :
    trimChunk 4 "ab.c".data ≠ specTrimChunk 4 "ab.c".data
    ∧ trimChunk 4 "ab.c".data = "ab.c".data
    ∧ specTrimChunk 4 "ab.c".data = "ab.".data
    ∧ chunk_text 4 1 "ab.cde" = ["ab.c", "cde"]
    ∧ ("ab.cde".data.drop 0).take 4 = "ab.c".data
    ∧ 0 + 4 < "ab.cde".data.length := by decide

/-- C8 (amended).  Any window of the walk that does not reach the end of
the text is `chunk_size` characters long and is trimmed back to end at the
last sentence-terminating period found strictly after the
50%-of-`chunk_size` mark (index `m` with `2 * m > chunk_size`); if no such
period exists — in particular when the last period sits at or before the
midpoint — the window is kept at its full `chunk_size` length. -/
theorem chunk_window_trim (chunk_size chunk_overlap : Nat)
    (text : List Char) (fuel start : Nat) :
    (start < text.length → start + chunk_size < text.length →
      chunkWalk chunk_size chunk_overlap text (fuel + 1) start
        = pyStrip (trimChunk chunk_size ((text.drop start).take chunk_size))
          :: chunkWalk chunk_size chunk_overlap text fuel
              (start + (trimChunk chunk_size
                  ((text.drop start).take chunk_size)).length - chunk_overlap))
    ∧ (start + chunk_size < text.length →
        ((text.drop start).take chunk_size).length = chunk_size)
    ∧ (∀ chunk : List Char,
        ((∀ j : Nat, chunk[j]? ≠ some '.') → trimChunk chunk_size chunk = chunk)
        ∧ (∀ m : Nat, chunk[m]? = some '.' →
            (∀ j : Nat, chunk[j]? = some '.' → j ≤ m) →
            ((chunk_size < 2 * m →
                trimChunk chunk_size chunk = chunk.take (m + 1))
             ∧ (2 * m ≤ chunk_size →
                trimChunk chunk_size chunk = chunk)))) := by
  refine ⟨?_, ?_, fun chunk => trimChunk_spec chunk_size chunk⟩
  · intro h1 h2
    simp only [chunkWalk]
    rw [if_pos h1, if_pos h2]
  · intro h2
    simp only [List.length_take, List.length_drop]
    omega

/-- C8 witness: the window `"abc.e"` with `chunk_size = 4` has its last
period at index 3, strictly past the midpoint, so it is trimmed to its
first four characters `"abc."`. -/
theorem chunk_window_trim_witness :
    trimChunk 4 "abc.e".data = "abc.e".data.take 4 :=
  (((chunk_window_trim 4 1 [] 0 0).2.2 "abc.e".data).2 3 (by decide)
    (rfindDot_some "abc.e".data 3 (by decide)).2).1 (by decide)

/-- C9 counterexample.  `chunk_text "A. B. C."` with `chunk_size = 4` and
`chunk_overlap = 1` produces `["A. B", "B. C", "C."]`; the first two
fragments do not end with a period, so the claim's "sequence of short
period-terminated fragments" fails. -/
theorem chunk_text_example_cex :
    chunk_text 4 1 "A. B. C." = ["A. B", "B. C", "C."]
    ∧ ¬ (∀ c ∈ chunk_text 4 1 "A. B. C.", c.data.getLast? = some '.') := by
  decide

/-- C9 (amended).  The walk produces exactly `["A. B", "B. C", "C."]`,
covering "A.", "B.", "C." in order (the trim rule never fires on this
input: each interior window's last period is at index 1, at or before the
midpoint 2); only the final fragment is period-terminated. -/
theorem chunk_text_example :
    chunk_text 4 1 "A. B. C." = ["A. B", "B. C", "C."]
    ∧ pyContains "A. B" "A." = true
    ∧ pyContains "B. C" "B." = true
    ∧ pyContains "C." "C." = true
    ∧ (chunk_text 4 1 "A. B. C.").getLast? = some "C." := by decide

end Cognify
